import Mathlib

/-!
Shallow embedding of the synchronized silence-detection and excision core of
void-cutter (Go sources: internal/silence/detection.go, the silence cutting
file with CutSilenceRegions, internal/loudness/loudness.go).

Modelling conventions:
* Go `int` values are modelled by `ℤ`; Go integer division (which truncates
  toward zero) by `Int.tdiv`.
* Go `float64` arithmetic is modelled by exact rational arithmetic on `ℚ`;
  the conversion `int(x)` from float64 to int (truncation toward zero) is
  modelled by `goTrunc`.
* Go slices of int32 samples are modelled by `List ℤ`; Go's runtime slice
  bounds checks in the excision splice are modelled by an `Option` result
  (`none` exactly when Go would panic with an out-of-range index).
* `math.Sqrt` and `math.Log10` only occur inside the final dBFS comparison
  of `isChunkSilent` and as the outermost, monotone and zero-preserving,
  step of the RMS computation; they are handled by exact algebraic
  equivalences documented at `rmsLeDb` and `calculateRMSMeanSquare`.
-/

/-- Truncation toward zero of a rational number, modelling Go's `int(x)`
conversion from float64 to int (`int(cutDuration * float64(...))` and
similar expressions). For nonnegative `x` this is the floor. -/
def goTrunc (x : ℚ) : ℤ := Int.tdiv x.num (x.den : ℤ)

/-- PCM buffer and its format metadata, the fields of `audio.AudioData`
used by the detection and excision core: interleaved integer samples,
sample rate in Hz, channel count, bit depth, cached duration in seconds,
and the file name carried through to the results. -/
structure AudioData where
  samples : List ℤ
  sampleRate : ℤ
  channels : ℤ
  bitDepth : ℤ
  duration : ℚ
  filename : String
deriving DecidableEq

/-- `GetFrameCount` from the audio package source: 0 when the channel count
is 0, otherwise `len(Samples) / Channels` with Go's truncating integer
division. -/
def AudioData.getFrameCount (a : AudioData) : ℤ :=
  if a.channels = 0 then 0
  else Int.tdiv (a.samples.length : ℤ) a.channels

/-- The per-bit-depth normalization factor from the switch statement in
`isChunkSilent` (detection.go): 2^15 for 16-bit, 2^23 for 24-bit, 2^31 for
32-bit, defaulting to the 16-bit value. -/
def normalizationFactor (bitDepth : ℤ) : ℚ :=
  if bitDepth = 16 then 32768
  else if bitDepth = 24 then 8388608
  else if bitDepth = 32 then 2147483648
  else 32768

/-- The sum of squared normalized samples accumulated by the loop in
`isChunkSilent` (detection.go): each sample is divided by the
normalization factor and the quotient is squared directly — the loop has
no clamping of values outside [-1,1]. -/
def detectionSumSquares (samples : List ℤ) (bitDepth : ℤ) : ℚ :=
  samples.foldl
    (fun (s : ℚ) (x : ℤ) =>
      s + ((x : ℚ) / normalizationFactor bitDepth) * ((x : ℚ) / normalizationFactor bitDepth))
    0

/-- The sample range `[startSample, endSample)` visited by the energy loop of
`isChunkSilent`, as a sublist of the buffer: `startSample = startFrame *
channels`, `endSample = endFrame * channels` clamped to the buffer length. -/
def chunkSegment (a : AudioData) (startFrame endFrame : ℤ) : List ℤ :=
  let startSample := startFrame * a.channels
  let endSample0 := endFrame * a.channels
  let endSample :=
    if endSample0 > (a.samples.length : ℤ) then (a.samples.length : ℤ) else endSample0
  (a.samples.drop startSample.toNat).take (endSample - startSample).toNat

/-- Decides the final dBFS comparison of `isChunkSilent` exactly: the Go code
tests `20*log10(sqrt meanSq) <= thr`, which over the reals (for `meanSq > 0`)
is equivalent to `meanSq ≤ 10^(thr/10)`, hence — raising both sides of the
inequality between positive reals to the positive integer power `(thr/10).den`
— to the decidable rational comparison `meanSq^(thr/10).den ≤ 10^(thr/10).num`. -/
def rmsLeDb (meanSq thr : ℚ) : Bool :=
  let r := thr / 10
  decide (meanSq ^ r.den ≤ (10 : ℚ) ^ r.num)

/-- `isChunkSilent` from detection.go: out-of-bounds ranges are silent; an
empty range is silent; zero RMS is silent (the Go test `rms == 0` holds iff
the mean square is 0, since `math.Sqrt` is zero-preserving on nonnegatives);
otherwise the RMS in dBFS is compared against the threshold. -/
def isChunkSilent (a : AudioData) (startFrame endFrame : ℤ) (thresholdDBFS : ℚ) : Bool :=
  if startFrame ≥ endFrame ∨ endFrame > a.getFrameCount then true
  else
    let startSample := startFrame * a.channels
    let endSample0 := endFrame * a.channels
    let endSample :=
      if endSample0 > (a.samples.length : ℤ) then (a.samples.length : ℤ) else endSample0
    let sampleCount := endSample - startSample
    let sumSquares := detectionSumSquares (chunkSegment a startFrame endFrame) a.bitDepth
    if sampleCount = 0 then true
    else
      let meanSq := sumSquares / (sampleCount : ℚ)
      if meanSq = 0 then true
      else rmsLeDb meanSq thresholdDBFS

/-- A detected silence region (detection.go). -/
structure SilenceRegion where
  startFrame : ℤ
  endFrame : ℤ
  duration : ℚ
  startTime : ℚ
  endTime : ℚ
deriving DecidableEq

/-- `createSilenceRegion` from detection.go. -/
def createSilenceRegion (startFrame endFrame sampleRate : ℤ) : SilenceRegion :=
  let startTime : ℚ := (startFrame : ℚ) / (sampleRate : ℚ)
  let endTime : ℚ := (endFrame : ℚ) / (sampleRate : ℚ)
  { startFrame := startFrame, endFrame := endFrame,
    duration := endTime - startTime, startTime := startTime, endTime := endTime }

/-- Silence detection parameters (detection.go). -/
structure SilenceDetectionConfig where
  thresholdDBFS : ℚ
  minDurationMs : ℤ
  chunkSizeMs : ℤ
deriving DecidableEq

/-- Result record of `DetectCommonSilence` (detection.go); the source always
sets `IndividualSilence` to nil, modelled as the empty list. -/
structure DetectionResult where
  commonSilenceRegions : List SilenceRegion
  individualSilence : List (List SilenceRegion)
  totalCommonSilence : ℚ
  audioFiles : List AudioData
  config : SilenceDetectionConfig
deriving DecidableEq

/-- The chunk-walking loop of `DetectCommonSilence`: steps `frameStart`
by `chunkFrames` while `frameStart < minFrames`, classifies each chunk as
common silence iff every buffer's `isChunkSilent` holds, and runs the
run-length state machine (`currentSilenceStart = -1` encodes the idle state,
exactly as in the Go source). The `fuel` argument is only a structural
termination bound: the caller passes `minFrames.toNat`, which never runs out
when `chunkFrames ≥ 1` (each iteration advances `frameStart` by at least 1),
so within that regime the recursion is exactly the Go loop. -/
def scanChunks (audioFiles : List AudioData) (config : SilenceDetectionConfig)
    (sampleRate chunkFrames minFrames : ℤ) :
    ℕ → ℤ → ℤ → List SilenceRegion → List SilenceRegion × ℤ
  | 0, _, currentSilenceStart, regions => (regions, currentSilenceStart)
  | fuel + 1, frameStart, currentSilenceStart, regions =>
    if frameStart < minFrames then
      let frameEnd0 := frameStart + chunkFrames
      let frameEnd := if frameEnd0 > minFrames then minFrames else frameEnd0
      let isCommonSilence :=
        audioFiles.all fun a => isChunkSilent a frameStart frameEnd config.thresholdDBFS
      if isCommonSilence then
        scanChunks audioFiles config sampleRate chunkFrames minFrames fuel
          (frameStart + chunkFrames)
          (if currentSilenceStart = -1 then frameStart else currentSilenceStart) regions
      else if currentSilenceStart ≠ -1 then
        let region := createSilenceRegion currentSilenceStart frameStart sampleRate
        let regions' :=
          if region.duration ≥ (config.minDurationMs : ℚ) / 1000 then regions ++ [region]
          else regions
        scanChunks audioFiles config sampleRate chunkFrames minFrames fuel
          (frameStart + chunkFrames) (-1) regions'
      else
        scanChunks audioFiles config sampleRate chunkFrames minFrames fuel
          (frameStart + chunkFrames) currentSilenceStart regions
    else (regions, currentSilenceStart)

/-- `DetectCommonSilence` from detection.go: errors on an empty input list,
then re-validates that every buffer matches the first one's sample rate and
channel count, computes the chunk size in frames (Go integer division, with
the zero guard bumping it to 1), scans up to the shortest buffer's frame
count, and closes a candidate region still open at end-of-scan at
`minFrames`, subject to the same minimum-duration gate. -/
def detectCommonSilence (audioFiles : List AudioData) (config : SilenceDetectionConfig) :
    Except String DetectionResult :=
  match audioFiles with
  | [] => Except.error "no audio files provided"
  | reference :: rest =>
    if rest.any fun a =>
        a.sampleRate != reference.sampleRate || a.channels != reference.channels then
      Except.error "all audio files must have the same sample rate and channel count"
    else
      let chunkFrames0 := Int.tdiv (config.chunkSizeMs * reference.sampleRate) 1000
      let chunkFrames := if chunkFrames0 = 0 then 1 else chunkFrames0
      let minFrames := rest.foldl
        (fun m a => if a.getFrameCount < m then a.getFrameCount else m)
        reference.getFrameCount
      let scanned := scanChunks (reference :: rest) config reference.sampleRate chunkFrames
        minFrames minFrames.toNat 0 (-1) []
      let commonSilenceRegions :=
        if scanned.2 ≠ -1 then
          let region := createSilenceRegion scanned.2 minFrames reference.sampleRate
          if region.duration ≥ (config.minDurationMs : ℚ) / 1000 then scanned.1 ++ [region]
          else scanned.1
        else scanned.1
      let totalCommonSilence := commonSilenceRegions.foldl (fun s r => s + r.duration) 0
      Except.ok { commonSilenceRegions := commonSilenceRegions, individualSilence := [],
                  totalCommonSilence := totalCommonSilence,
                  audioFiles := reference :: rest, config := config }

/-- Result record of `CutSilenceRegions`. -/
structure CuttingResult where
  originalDuration : ℚ
  newDuration : ℚ
  removedDuration : ℚ
  regionsCut : List SilenceRegion
  keepDurationMs : ℤ
  filename : String
deriving DecidableEq

/-- One iteration of the region loop in `CutSilenceRegions`, acting on the
state (current sample buffer, total removed duration, regions cut so far).
The Go fallback branch also reassigns its local `keepSamples` variable to
`endSample - startSample`, but that value is never read afterwards, so the
dead store is omitted. Returns `none` exactly when one of Go's slice bounds
checks in the splice would fail (`cutStartSample` negative or
`cutStartSample + actualCutSamples` beyond the buffer). -/
def cutStep (a : AudioData) (keepDurationSec : ℚ)
    (st : List ℤ × ℚ × List SilenceRegion) (region : SilenceRegion) :
    Option (List ℤ × ℚ × List SilenceRegion) :=
  let modifiedSamples := st.1
  if region.duration ≤ keepDurationSec then some st
  else
    let cutDuration := region.duration - keepDurationSec
    let cutFrames := goTrunc (cutDuration * (a.sampleRate : ℚ))
    let cutSamples := cutFrames * a.channels
    let startSample0 := region.startFrame * a.channels
    let endSample0 := region.endFrame * a.channels
    let keepSamples := goTrunc (keepDurationSec * (a.sampleRate : ℚ)) * a.channels
    let endSample :=
      if endSample0 > (modifiedSamples.length : ℤ) then (modifiedSamples.length : ℤ)
      else endSample0
    let startSample := if startSample0 < 0 then 0 else startSample0
    let cutStartSample0 := startSample + keepSamples
    let cutStartSample := if cutStartSample0 > endSample then startSample else cutStartSample0
    if cutStartSample < endSample ∧ cutSamples > 0 then
      let actualCutSamples0 := endSample - cutStartSample
      let actualCutSamples :=
        if actualCutSamples0 > cutSamples then cutSamples else actualCutSamples0
      if 0 ≤ cutStartSample ∧
          cutStartSample + actualCutSamples ≤ (modifiedSamples.length : ℤ) then
        let newSamples := modifiedSamples.take cutStartSample.toNat ++
          modifiedSamples.drop (cutStartSample + actualCutSamples).toNat
        let actualCutDuration := (actualCutSamples : ℚ) / (a.sampleRate : ℚ) / (a.channels : ℚ)
        some (newSamples, st.2.1 + actualCutDuration, region :: st.2.2)
      else none
    else some st

/-- `CutSilenceRegions` from the silence cutting source: processes the region
list from last to first (fold over the reversed list), starting from a copy
of the buffer, then writes the modified samples and recomputed duration back
into the audio data and builds the `CuttingResult`. Prepending each cut
region inside `cutStep` while iterating in reverse leaves `regionsCut` in
original order, as in the source. -/
def cutSilenceRegions (audioData : AudioData) (silenceRegions : List SilenceRegion)
    (keepDurationMs : ℤ) : Option (AudioData × CuttingResult) :=
  let keepDurationSec : ℚ := (keepDurationMs : ℚ) / 1000
  match silenceRegions.reverse.foldlM (cutStep audioData keepDurationSec)
      (audioData.samples, (0 : ℚ), ([] : List SilenceRegion)) with
  | none => none
  | some st =>
    let newDuration := (st.1.length : ℚ) / (audioData.sampleRate : ℚ) / (audioData.channels : ℚ)
    some ({ audioData with samples := st.1, duration := newDuration },
      { originalDuration := audioData.duration, newDuration := newDuration,
        removedDuration := st.2.1, regionsCut := st.2.2,
        keepDurationMs := keepDurationMs, filename := audioData.filename })

/-- The per-bit-depth full-scale value from the switch in
`calculateRMSWithBitDepth` (loudness.go); the same values as
`normalizationFactor` but duplicated in that source file. -/
def loudnessMaxValue (bitDepth : ℤ) : ℚ :=
  if bitDepth = 16 then 32768
  else if bitDepth = 24 then 8388608
  else if bitDepth = 32 then 2147483648
  else 32768

/-- The clamping of a normalized sample in `calculateRMSWithBitDepth`
(loudness.go): values above 1 become 1, values below -1 become -1. -/
def loudnessClamp (x : ℚ) : ℚ :=
  if x > 1 then 1 else if x < -1 then -1 else x

/-- The sum of squared clamped normalized samples accumulated by the loop in
`calculateRMSWithBitDepth` (loudness.go) — unlike the detection loop, this
one clamps before squaring. -/
def loudnessSumSquares (samples : List ℤ) (bitDepth : ℤ) : ℚ :=
  samples.foldl
    (fun (s : ℚ) (x : ℤ) =>
      s + loudnessClamp ((x : ℚ) / loudnessMaxValue bitDepth) *
        loudnessClamp ((x : ℚ) / loudnessMaxValue bitDepth))
    0

/-- The mean of squared clamped normalized samples from
`calculateRMSWithBitDepth` (loudness.go): the function returns 0 for an empty
sample list and otherwise the square root of this mean; the square root is
monotone and zero-preserving, so clamping claims are stated on the mean
square. -/
def calculateRMSMeanSquare (samples : List ℤ) (bitDepth : ℤ) : ℚ :=
  if samples.length = 0 then 0
  else loudnessSumSquares samples bitDepth / (samples.length : ℚ)

/-- Modelled from the spec: the Energy Analyzer contract of spec section 4.1
— normalize each integer sample to [-1,1] using the full-scale value
2^(bit_depth-1) (falling back to 16-bit semantics for other depths, spec
section 6), clamp values outside [-1,1], then square and sum. -/
def specClampedSumSquares (samples : List ℤ) (bitDepth : ℤ) : ℚ :=
  let fullScale : ℚ :=
    if bitDepth = 16 ∨ bitDepth = 24 ∨ bitDepth = 32 then (2 : ℚ) ^ (bitDepth - 1).toNat
    else 32768
  samples.foldl (fun (s : ℚ) (x : ℤ) => s + (max (-1) (min 1 ((x : ℚ) / fullScale))) ^ 2) 0

/-! ## Helper lemmas -/

/-- Truncation toward zero of a nonnegative rational is nonnegative. -/
theorem goTrunc_nonneg {x : ℚ} (h : 0 ≤ x) : 0 ≤ goTrunc x := by
  unfold goTrunc
  exact Int.tdiv_nonneg (Rat.num_nonneg.mpr h) (by positivity)

/-- A fold of skip-only excision steps leaves the state unchanged. -/
theorem foldlM_cutStep_skip (a : AudioData) (ks : ℚ) :
    ∀ (l : List SilenceRegion) (st : List ℤ × ℚ × List SilenceRegion),
      (∀ r ∈ l, r.duration ≤ ks) →
      List.foldlM (cutStep a ks) st l = some st
  | [], _, _ => rfl
  | r :: t, st, h => by
    have hr : cutStep a ks st r = some st := by
      unfold cutStep
      rw [if_pos (h r (List.mem_cons_self r t))]
    rw [List.foldlM_cons, hr]
    exact foldlM_cutStep_skip a ks t st (fun x hx => h x (List.mem_cons_of_mem r hx))

/-! ## C5: Chunk Classifier guaranteed-silent cases -/

/-- C5: for every buffer, every frame range, and every threshold value, if
the range is out of bounds (start_frame ≥ end_frame, or end_frame beyond the
buffer's frame count) or the range's accumulated squared energy is exactly 0
(equivalently, its RMS is exactly 0), then isChunkSilent returns true —
independent of the threshold. -/
theorem isChunkSilent_guaranteed_silent (a : AudioData) (startFrame endFrame : ℤ)
    (thr : ℚ)
    (h : startFrame ≥ endFrame ∨ endFrame > a.getFrameCount ∨
      detectionSumSquares (chunkSegment a startFrame endFrame) a.bitDepth = 0) :
    isChunkSilent a startFrame endFrame thr = true := by
  unfold isChunkSilent
  rcases h with h | h | h
  · rw [if_pos (Or.inl h)]
  · rw [if_pos (Or.inr h)]
  · by_cases hg : startFrame ≥ endFrame ∨ endFrame > a.getFrameCount
    · rw [if_pos hg]
    · rw [if_neg hg]
      simp only [h, zero_div]
      split_ifs with h1 h2 <;> simp_all

/-- Witness for C5 at a concrete out-of-bounds range. -/
theorem isChunkSilent_guaranteed_silent_witness :
    isChunkSilent ⟨[5], 1, 1, 16, 1, "w5"⟩ 3 2 (-50) = true :=
  isChunkSilent_guaranteed_silent ⟨[5], 1, 1, 16, 1, "w5"⟩ 3 2 (-50)
    (Or.inl (by decide))

/-! ## C8: Keep-duration idempotence -/

/-- C8: if keep_duration_ms/1000 is at least every region's duration, every
region is skipped and excision is a no-op: the output sample buffer is
bit-identical to the input, the removed duration is 0, and the regions-cut
list is empty. -/
theorem cut_noop_when_keep_ge_duration (a : AudioData) (regions : List SilenceRegion)
    (keepMs : ℤ) (h : ∀ r ∈ regions, r.duration ≤ (keepMs : ℚ) / 1000) :
    ∃ a' res, cutSilenceRegions a regions keepMs = some (a', res) ∧
      a'.samples = a.samples ∧ res.removedDuration = 0 ∧ res.regionsCut = [] := by
  unfold cutSilenceRegions
  dsimp only
  rw [foldlM_cutStep_skip a ((keepMs : ℚ) / 1000) regions.reverse
    (a.samples, (0 : ℚ), ([] : List SilenceRegion))
    (fun r hr => h r (List.mem_reverse.mp hr))]
  exact ⟨_, _, rfl, rfl, rfl, rfl⟩

/-- Witness for C8, spec scenario C: a 100 ms region with keep duration
250 ms is skipped entirely. -/
theorem cut_noop_when_keep_ge_duration_witness :
    (∀ r ∈ [(⟨100, 200, 1/10, 1/10, 2/10⟩ : SilenceRegion)], r.duration ≤ (250 : ℚ) / 1000) ∧
      ∃ a' res, cutSilenceRegions ⟨[7, 8], 1000, 1, 16, 2/1000, "w8"⟩
          [⟨100, 200, 1/10, 1/10, 2/10⟩] 250 = some (a', res) ∧
        a'.samples = (⟨[7, 8], 1000, 1, 16, 2/1000, "w8"⟩ : AudioData).samples ∧
        res.removedDuration = 0 ∧ res.regionsCut = [] :=
  ⟨by with_unfolding_all decide,
    cut_noop_when_keep_ge_duration ⟨[7, 8], 1000, 1, 16, 2/1000, "w8"⟩
      [⟨100, 200, 1/10, 1/10, 2/10⟩] 250 (by with_unfolding_all decide)⟩

/-! ## C2: energy normalization and clamping at the two RMS call sites -/

/-- Fold extensionality for the squared-sum accumulators, restricted to list
members. -/
theorem foldl_sq_ext (f g : ℚ → ℤ → ℚ) :
    ∀ (l : List ℤ), (∀ x ∈ l, ∀ s, f s x = g s x) → ∀ init : ℚ,
      l.foldl f init = l.foldl g init
  | [], _, _ => rfl
  | x :: t, h, init => by
    rw [List.foldl_cons, List.foldl_cons, h x (List.mem_cons_self x t)]
    exact foldl_sq_ext f g t (fun y hy s => h y (List.mem_cons_of_mem x hy) s) _

/-- The branch-structured clamp of calculateRMSWithBitDepth equals the
max/min clamp used by the spec's Energy Analyzer model. -/
theorem loudnessClamp_eq (x : ℚ) : loudnessClamp x = max (-1) (min 1 x) := by
  unfold loudnessClamp
  rw [max_def, min_def]
  split_ifs <;> linarith

/-- The spec's full-scale value 2^(bit_depth-1) with 16-bit fallback agrees
with both duplicated switch statements in the source. -/
theorem fullScale_eq (bitDepth : ℤ) :
    (if bitDepth = 16 ∨ bitDepth = 24 ∨ bitDepth = 32 then (2 : ℚ) ^ (bitDepth - 1).toNat
      else 32768) = loudnessMaxValue bitDepth ∧
    loudnessMaxValue bitDepth = normalizationFactor bitDepth := by
  unfold loudnessMaxValue normalizationFactor
  by_cases h16 : bitDepth = 16
  · subst h16
    constructor
    · rw [if_pos (Or.inl rfl), if_pos rfl]
      have h : ((16 : ℤ) - 1).toNat = 15 := by decide
      rw [h]; norm_num
    · rfl
  · by_cases h24 : bitDepth = 24
    · subst h24
      constructor
      · rw [if_pos (Or.inr (Or.inl rfl)), if_neg (by decide), if_pos rfl]
        have h : ((24 : ℤ) - 1).toNat = 23 := by decide
        rw [h]; norm_num
      · rfl
    · by_cases h32 : bitDepth = 32
      · subst h32
        constructor
        · rw [if_pos (Or.inr (Or.inr rfl)), if_neg (by decide), if_neg (by decide), if_pos rfl]
          have h : ((32 : ℤ) - 1).toNat = 31 := by decide
          rw [h]; norm_num
        · rfl
      · simp [h16, h24, h32]

/-- The normalization factor is positive for every bit depth. -/
theorem normalizationFactor_pos (bitDepth : ℤ) : 0 < normalizationFactor bitDepth := by
  unfold normalizationFactor
  split_ifs <;> norm_num

/-- C2 counterexample: on the single 16-bit sample 65536 (twice the
full-scale value; such magnitudes can occur after gain application), the
silence-detection energy loop squares the unclamped normalized value and
accumulates 4, whereas the clamped computation asserted by the claim for
both call sites (and actually performed by the loudness RMS) yields 1 —
the silence-detection call site does not clamp. -/
theorem energyClamp_both_sites_cex :
    detectionSumSquares [65536] 16 = 4 ∧ specClampedSumSquares [65536] 16 = 1 ∧
      loudnessSumSquares [65536] 16 = 1 ∧ ((4 : ℚ) ≠ 1) := by
  with_unfolding_all decide

/-- C2 amended: both call sites normalize by the full-scale value implied by
bit_depth (2^(bit_depth-1), 16-bit fallback), but only the loudness
measurement clamps normalized values outside [-1,1] before squaring — its
accumulated squared sum equals the spec's clamped Energy Analyzer
computation on every input. The silence-detection chunk classifier does not
clamp; its accumulated squared sum agrees with the clamped computation
whenever every sample magnitude is at most the full-scale value. -/
theorem energyClamp_sites (samples : List ℤ) (bitDepth : ℤ) :
    loudnessSumSquares samples bitDepth = specClampedSumSquares samples bitDepth ∧
      ((∀ s ∈ samples, |(s : ℚ)| ≤ normalizationFactor bitDepth) →
        detectionSumSquares samples bitDepth = specClampedSumSquares samples bitDepth) := by
  obtain ⟨hfs, hlm⟩ := fullScale_eq bitDepth
  constructor
  · unfold loudnessSumSquares specClampedSumSquares
    dsimp only
    rw [hfs]
    exact foldl_sq_ext _ _ samples
      (fun x _ s => by rw [loudnessClamp_eq, pow_two]) 0
  · intro h
    unfold detectionSumSquares specClampedSumSquares
    dsimp only
    rw [hfs, hlm]
    refine foldl_sq_ext _ _ samples (fun x hx s => ?_) 0
    have hnf : 0 < normalizationFactor bitDepth := normalizationFactor_pos bitDepth
    have habs := abs_le.mp (h x hx)
    have h1 : (x : ℚ) / normalizationFactor bitDepth ≤ 1 :=
      (div_le_one hnf).mpr habs.2
    have h2 : (-1 : ℚ) ≤ (x : ℚ) / normalizationFactor bitDepth := by
      rw [le_div_iff₀ hnf]
      linarith [habs.1]
    rw [min_eq_right h1, max_eq_right h2, pow_two]

/-- Witness for C2 amended, at an in-range 16-bit sample. -/
theorem energyClamp_sites_witness :
    loudnessSumSquares [16384] 16 = specClampedSumSquares [16384] 16 ∧
      detectionSumSquares [16384] 16 = specClampedSumSquares [16384] 16 :=
  ⟨(energyClamp_sites [16384] 16).1,
    (energyClamp_sites [16384] 16).2 (by with_unfolding_all decide)⟩

/-! ## C3: Common Silence Detector failure modes -/

/-- C3 counterexample: a non-empty pair of buffers whose sample rates differ;
the claim says detection never fails because of a format mismatch among a
non-empty set of buffers, but DetectCommonSilence re-validates the formats
and returns a configuration error here. -/
theorem detect_format_mismatch_cex :
    ([⟨[0], 1, 1, 16, 1, "ca"⟩, ⟨[0], 2, 1, 16, 1, "cb"⟩] : List AudioData) ≠ [] ∧
      (detectCommonSilence [⟨[0], 1, 1, 16, 1, "ca"⟩, ⟨[0], 2, 1, 16, 1, "cb"⟩]
          ⟨0, 1, 1⟩).isOk = false := by
  with_unfolding_all decide

/-- C3 amended: detection succeeds iff the input buffer list is non-empty
and every buffer matches the first buffer's sample rate and channel count;
it returns a configuration error exactly when the list is empty or the
formats mismatch — it does re-validate formats itself. (The nonnegativity
hypotheses pin the model to the regime where the Go scan loop terminates;
both error checks happen before that loop.) -/
theorem detect_error_iff (files : List AudioData) (cfg : SilenceDetectionConfig)
    (hcs : 0 ≤ cfg.chunkSizeMs) (hsr : ∀ a ∈ files, 0 ≤ a.sampleRate) :
    (detectCommonSilence files cfg).isOk = true ↔
      ∃ ref rest, files = ref :: rest ∧
        ∀ a ∈ rest, a.sampleRate = ref.sampleRate ∧ a.channels = ref.channels := by
  cases files with
  | nil =>
    constructor
    · intro h; exact Bool.noConfusion h
    · rintro ⟨ref, rest, h, -⟩
      exact absurd h.symm (List.cons_ne_nil ref rest)
  | cons ref rest =>
    show (detectCommonSilence (ref :: rest) cfg).isOk = true ↔ _
    unfold detectCommonSilence
    dsimp only
    by_cases hfmt : rest.any fun a =>
        a.sampleRate != ref.sampleRate || a.channels != ref.channels
    · rw [if_pos hfmt]
      constructor
      · intro h; exact Bool.noConfusion h
      · rintro ⟨ref', rest', heq, hall⟩
        injection heq with h1 h2
        subst h1; subst h2
        obtain ⟨a, ha, hne⟩ := List.any_eq_true.mp hfmt
        rcases Bool.or_eq_true_iff.mp hne with hb | hb
        · exact absurd (hall a ha).1 (bne_iff_ne.mp hb)
        · exact absurd (hall a ha).2 (bne_iff_ne.mp hb)
    · rw [if_neg hfmt]
      constructor
      · intro _
        refine ⟨ref, rest, rfl, fun a ha => ?_⟩
        have := List.any_eq_false.mp (Bool.not_eq_true _ |>.mp hfmt) a ha
        constructor
        · by_contra hne
          exact this (Bool.or_eq_true_iff.mpr (Or.inl (bne_iff_ne.mpr hne)))
        · by_contra hne
          exact this (Bool.or_eq_true_iff.mpr (Or.inr (bne_iff_ne.mpr hne)))
      · intro _; rfl

/-- Witness for C3 amended: a single consistent buffer yields a result. -/
theorem detect_error_iff_witness :
    (detectCommonSilence [⟨[0], 1, 1, 16, 1, "wc"⟩] ⟨0, 1, 1⟩).isOk = true :=
  (detect_error_iff [⟨[0], 1, 1, 16, 1, "wc"⟩] ⟨0, 1, 1⟩ (by with_unfolding_all decide)
      (by with_unfolding_all decide)).mpr
    ⟨⟨[0], 1, 1, 16, 1, "wc"⟩, [], rfl, by simp⟩

/-! ## C1 and C4: Region Excisor cut placement -/

/-- The clamped start sample index computed by the region loop of
CutSilenceRegions (its `startSample` local after the negative clamp), named
at top level for use in theorem statements. -/
def clampedStartSample (r : SilenceRegion) (channels : ℤ) : ℤ :=
  if r.startFrame * channels < 0 then 0 else r.startFrame * channels

/-- The clamped end sample index computed by the region loop of
CutSilenceRegions (its `endSample` local after the length clamp) for a
buffer of `n` samples. -/
def clampedEndSample (r : SilenceRegion) (channels : ℤ) (n : ℕ) : ℤ :=
  if r.endFrame * channels > (n : ℤ) then (n : ℤ) else r.endFrame * channels

/-- The `keepSamples` local of the region loop of CutSilenceRegions. -/
def keepSamplesOf (a : AudioData) (keepDurationSec : ℚ) : ℤ :=
  goTrunc (keepDurationSec * (a.sampleRate : ℚ)) * a.channels

/-- The `cutSamples` local of the region loop of CutSilenceRegions. -/
def cutSamplesOf (a : AudioData) (keepDurationSec : ℚ) (r : SilenceRegion) : ℤ :=
  goTrunc ((r.duration - keepDurationSec) * (a.sampleRate : ℚ)) * a.channels

/-- Truncation of a rational that is an integer cast is that integer. -/
theorem goTrunc_intCast (n : ℤ) : goTrunc ((n : ℚ)) = n := by
  unfold goTrunc
  rw [Rat.num_intCast, Rat.den_intCast]
  exact Int.tdiv_one n

def aC1 : AudioData := ⟨[1, 2, 3, 4], 8, 1, 16, 1/2, "c1"⟩

def rC1 : SilenceRegion := ⟨0, 16, 2, 0, 2⟩

/-- C1 counterexample: a buffer of 4 samples at 8 Hz mono and the region
[0,16) with duration 2 s; with keep_duration 1000 ms the region's duration
exceeds keep_seconds = 1 and its in-bounds sample span (4, after clamping
end_sample to the buffer length) is smaller than keep_samples = 8 — the
claim says the region is then left unmodified, but the pass removes the
entire in-bounds span and outputs an empty buffer. -/
theorem cutRegion_keepExceedsSpan_cex :
    (1000 : ℚ) / 1000 < rC1.duration ∧
      clampedEndSample rC1 aC1.channels aC1.samples.length -
        clampedStartSample rC1 aC1.channels < keepSamplesOf aC1 ((1000 : ℚ) / 1000) ∧
      (cutSilenceRegions aC1 [rC1] 1000).map (fun p => p.1.samples) = some [] ∧
      aC1.samples ≠ [] := by
  with_unfolding_all decide

/-- C1 amended: in the keep-exceeds-span case (duration above keep_seconds
but clamped sample span smaller than keep_samples) the excision step falls
back to cutting from the clamped start of the region: whenever the clamped
span is positive and cut_samples is positive, it removes
min(span, cut_samples) samples beginning at the clamped start_sample — the
region is modified, not kept; it is left unmodified only when the clamped
span is empty or cut_samples is zero. -/
theorem cutRegion_keepExceedsSpan_cuts_front (a : AudioData) (ks : ℚ)
    (st : List ℤ × ℚ × List SilenceRegion) (r : SilenceRegion)
    (hdur : ks < r.duration)
    (hspan : clampedEndSample r a.channels st.1.length - clampedStartSample r a.channels <
      keepSamplesOf a ks)
    (hpos : clampedStartSample r a.channels < clampedEndSample r a.channels st.1.length)
    (hcut : 0 < cutSamplesOf a ks r) :
    cutStep a ks st r = some
      (st.1.take (clampedStartSample r a.channels).toNat ++
        st.1.drop ((clampedStartSample r a.channels +
          min (clampedEndSample r a.channels st.1.length - clampedStartSample r a.channels)
            (cutSamplesOf a ks r)).toNat),
       st.2.1 + ((min (clampedEndSample r a.channels st.1.length -
            clampedStartSample r a.channels) (cutSamplesOf a ks r) : ℤ) : ℚ) /
          (a.sampleRate : ℚ) / (a.channels : ℚ),
       r :: st.2.2) := by
  unfold clampedStartSample clampedEndSample keepSamplesOf at hspan
  unfold clampedStartSample clampedEndSample at hpos
  unfold cutSamplesOf at hcut
  unfold cutStep
  rw [if_neg (not_le.mpr hdur)]
  dsimp only
  unfold clampedStartSample clampedEndSample cutSamplesOf
  split_ifs at hspan hpos hcut ⊢ <;>
    first
      | (exfalso; omega)
      | (rw [min_eq_left (by omega)])
      | (rw [min_eq_right (by omega)])

/-- Witness for C1 amended at the concrete keep-exceeds-span input: the
whole in-bounds span [0,4) is removed. -/
theorem cutRegion_keepExceedsSpan_cuts_front_witness :
    cutStep aC1 1 (aC1.samples, 0, []) rC1 = some ([], 1/2, [rC1]) := by
  rw [cutRegion_keepExceedsSpan_cuts_front aC1 1 (aC1.samples, 0, []) rC1
    (by with_unfolding_all decide) (by with_unfolding_all decide)
    (by with_unfolding_all decide) (by with_unfolding_all decide)]
  with_unfolding_all decide

def aC4 : AudioData := ⟨[10, 20, 30, 40], 2, 1, 16, 2, "c4"⟩

def rC4 : SilenceRegion := ⟨0, 2, 1, 0, 1⟩

/-- C4 counterexample: at 2 Hz mono with keep_duration_ms = 250 the region
[0,2) has duration 1 s > 0.25 s and lies in bounds, keep_samples =
trunc(0.25·2) = 0, so the claimed splice samples[0:cut_start] ++
samples[cut_end:] would leave [30,40]; but the code caps the removed span at
cut_samples = trunc(0.75·2) = 1 sample, producing [20,30,40] — the retained
portion is not exactly the first keep_samples samples of the region. -/
theorem cut_placement_cex :
    (250 : ℚ) / 1000 < rC4.duration ∧ 0 ≤ rC4.startFrame ∧
      rC4.endFrame * aC4.channels ≤ (aC4.samples.length : ℤ) ∧
      (cutSilenceRegions aC4 [rC4] 250).map (fun p => p.1.samples) = some [20, 30, 40] ∧
      ([20, 30, 40] : List ℤ) ≠
        aC4.samples.take ((rC4.startFrame * aC4.channels +
            keepSamplesOf aC4 ((250 : ℚ) / 1000)).toNat) ++
          aC4.samples.drop ((rC4.endFrame * aC4.channels).toNat) := by
  with_unfolding_all decide

/-- C4 amended: the cut placement claim holds once the floor cap is
accounted for: when keep_seconds·sample_rate is an integer and the region's
duration is consistent with its frame span (duration·sample_rate =
end_frame - start_frame, as createSilenceRegion guarantees), an in-bounds
region with duration exceeding keep_seconds is excised to exactly the
claimed splice samples[0:cut_start] ++ samples[cut_end:], with cut_start =
start_sample + keep_samples and cut_end = end_sample; in general the removed
span is additionally capped at cut_samples = trunc((duration -
keep_seconds)·rate)·channels, which can retain up to one extra frame at the
back of the region (see the counterexample). -/
theorem cut_placement_exact (a : AudioData) (r : SilenceRegion) (keepMs : ℤ)
    (hch : 1 ≤ a.channels) (hsr : 1 ≤ a.sampleRate) (hkeep : 0 ≤ keepMs)
    (hdur : (keepMs : ℚ) / 1000 < r.duration)
    (hsf : 0 ≤ r.startFrame)
    (hbound : r.endFrame * a.channels ≤ (a.samples.length : ℤ))
    (hexact : (goTrunc ((keepMs : ℚ) / 1000 * (a.sampleRate : ℚ)) : ℚ) =
      (keepMs : ℚ) / 1000 * (a.sampleRate : ℚ))
    (hcons : r.duration * (a.sampleRate : ℚ) = ((r.endFrame - r.startFrame : ℤ) : ℚ)) :
    (cutSilenceRegions a [r] keepMs).map (fun p => p.1.samples) =
      some (a.samples.take ((r.startFrame * a.channels +
          keepSamplesOf a ((keepMs : ℚ) / 1000)).toNat) ++
        a.samples.drop ((r.endFrame * a.channels).toNat)) := by
  have hsrq : (0 : ℚ) < (a.sampleRate : ℚ) := by
    exact_mod_cast lt_of_lt_of_le Int.zero_lt_one hsr
  have hks0 : (0 : ℚ) ≤ (keepMs : ℚ) / 1000 := by
    apply div_nonneg _ (by norm_num)
    exact_mod_cast hkeep
  -- k := trunc(keep_seconds * rate) is nonnegative
  have hk0 : 0 ≤ goTrunc ((keepMs : ℚ) / 1000 * (a.sampleRate : ℚ)) :=
    goTrunc_nonneg (mul_nonneg hks0 (le_of_lt hsrq))
  -- k < F := end_frame - start_frame
  have hkF : goTrunc ((keepMs : ℚ) / 1000 * (a.sampleRate : ℚ)) < r.endFrame - r.startFrame := by
    have h1 : (keepMs : ℚ) / 1000 * (a.sampleRate : ℚ) < r.duration * (a.sampleRate : ℚ) :=
      mul_lt_mul_of_pos_right hdur hsrq
    rw [hcons, ← hexact] at h1
    exact_mod_cast h1
  -- the cut frame count is exactly F - k
  have hcf : goTrunc ((r.duration - (keepMs : ℚ) / 1000) * (a.sampleRate : ℚ)) =
      r.endFrame - r.startFrame - goTrunc ((keepMs : ℚ) / 1000 * (a.sampleRate : ℚ)) := by
    have hq : (r.duration - (keepMs : ℚ) / 1000) * (a.sampleRate : ℚ) =
        ((r.endFrame - r.startFrame - goTrunc ((keepMs : ℚ) / 1000 * (a.sampleRate : ℚ)) : ℤ) : ℚ) := by
      have hcons' : r.duration * (a.sampleRate : ℚ) =
          (r.endFrame : ℚ) - (r.startFrame : ℚ) := by push_cast at hcons; exact hcons
      push_cast
      linear_combination hcons' + hexact
    rw [hq, goTrunc_intCast]
  set k := goTrunc ((keepMs : ℚ) / 1000 * (a.sampleRate : ℚ)) with hkdef
  have hch0 : (0 : ℤ) < a.channels := by omega
  -- product inequalities used to steer the branch structure
  have hprod : r.startFrame * a.channels + k * a.channels < r.endFrame * a.channels := by
    have h1 : (0 : ℤ) < (r.endFrame - r.startFrame - k) * a.channels :=
      mul_pos (by omega) hch0
    have h2 : (r.endFrame - r.startFrame - k) * a.channels =
        r.endFrame * a.channels - r.startFrame * a.channels - k * a.channels := by ring
    omega
  have hstart0 : 0 ≤ r.startFrame * a.channels := mul_nonneg hsf (le_of_lt hch0)
  have hk0' : 0 ≤ k * a.channels := mul_nonneg hk0 (le_of_lt hch0)
  have hcutpos : 0 < (r.endFrame - r.startFrame - k) * a.channels := mul_pos (by omega) hch0
  have hcutexp : (r.endFrame - r.startFrame - k) * a.channels =
      r.endFrame * a.channels - r.startFrame * a.channels - k * a.channels := by ring
  -- reduce the single-region pass to one cutStep and evaluate its branches
  unfold cutSilenceRegions
  dsimp only
  rw [List.reverse_singleton]
  rw [show List.foldlM (cutStep a ((keepMs : ℚ) / 1000))
      (a.samples, (0 : ℚ), ([] : List SilenceRegion)) [r] =
      cutStep a ((keepMs : ℚ) / 1000) (a.samples, (0 : ℚ), ([] : List SilenceRegion)) r from by
    simp only [List.foldlM_cons, List.foldlM_nil]
    exact bind_pure _]
  unfold cutStep
  rw [if_neg (not_le.mpr hdur)]
  dsimp only
  rw [if_neg (not_lt.mpr hbound), if_neg (not_lt.mpr hstart0), ← hkdef, hcf]
  rw [if_neg (not_lt.mpr (le_of_lt hprod))]
  rw [if_pos ⟨hprod, by omega⟩]
  rw [if_neg (show ¬((r.endFrame - r.startFrame - k) * a.channels <
      r.endFrame * a.channels - (r.startFrame * a.channels + k * a.channels)) from by omega)]
  rw [if_pos (⟨by omega, by omega⟩ :
    (0 : ℤ) ≤ r.startFrame * a.channels + k * a.channels ∧
      r.startFrame * a.channels + k * a.channels +
        (r.endFrame * a.channels - (r.startFrame * a.channels + k * a.channels)) ≤
        (a.samples.length : ℤ))]
  dsimp only
  rw [show r.startFrame * a.channels + k * a.channels +
      (r.endFrame * a.channels - (r.startFrame * a.channels + k * a.channels)) =
      r.endFrame * a.channels from by ring]
  unfold keepSamplesOf
  rw [← hkdef]
  rfl

/-- Witness for C4 amended, spec scenario D scaled down: 10 Hz mono, region
[1,4), keep 100 ms = 1 frame kept, 2 frames removed. -/
theorem cut_placement_exact_witness :
    (cutSilenceRegions ⟨[1, 2, 3, 4, 5], 10, 1, 16, 1/2, "w4"⟩
        [⟨1, 4, 3/10, 1/10, 4/10⟩] 100).map (fun p => p.1.samples) =
      some ([1, 2, 5] : List ℤ) := by
  rw [cut_placement_exact ⟨[1, 2, 3, 4, 5], 10, 1, 16, 1/2, "w4"⟩ ⟨1, 4, 3/10, 1/10, 4/10⟩ 100
    (by with_unfolding_all decide) (by with_unfolding_all decide)
    (by with_unfolding_all decide) (by with_unfolding_all decide)
    (by with_unfolding_all decide) (by with_unfolding_all decide)
    (by with_unfolding_all decide) (by with_unfolding_all decide)]
  with_unfolding_all decide

/-! ## C10: excision never indexes out of bounds -/

/-- A single excision step never fails a slice bounds check when the
keep-sample count is nonnegative: the start clamp, the end clamp and the
cut-start fallback keep every index inside the current buffer. -/
theorem cutStep_isSome (a : AudioData) (ks : ℚ) (st : List ℤ × ℚ × List SilenceRegion)
    (r : SilenceRegion) (hk : 0 ≤ goTrunc (ks * (a.sampleRate : ℚ)) * a.channels) :
    (cutStep a ks st r).isSome = true := by
  unfold cutStep
  dsimp only
  split_ifs <;> first | rfl | (exfalso; omega)

/-- The whole excision fold never fails a bounds check. -/
theorem foldlM_cutStep_isSome (a : AudioData) (ks : ℚ)
    (hk : 0 ≤ goTrunc (ks * (a.sampleRate : ℚ)) * a.channels) :
    ∀ (l : List SilenceRegion) (st : List ℤ × ℚ × List SilenceRegion),
      (List.foldlM (cutStep a ks) st l).isSome = true
  | [], _ => rfl
  | r :: t, st => by
    rw [List.foldlM_cons]
    obtain ⟨st', hst'⟩ := Option.isSome_iff_exists.mp (cutStep_isSome a ks st r hk)
    rw [hst']
    exact foldlM_cutStep_isSome a ks hk t st'

/-- C10: for every buffer with positive rate and channel count, every
nonnegative keep duration, and every region list — even unordered,
overlapping, or partly or wholly out of bounds — the excision pass never
indexes outside the current sample buffer: the operation is total. -/
theorem cut_total_in_bounds (a : AudioData) (regions : List SilenceRegion) (keepMs : ℤ)
    (hkeep : 0 ≤ keepMs) (hsr : 1 ≤ a.sampleRate) (hch : 1 ≤ a.channels) :
    (cutSilenceRegions a regions keepMs).isSome = true := by
  have hks : (0 : ℚ) ≤ (keepMs : ℚ) / 1000 := by
    apply div_nonneg _ (by norm_num)
    exact_mod_cast hkeep
  have hsrq : (0 : ℚ) ≤ (a.sampleRate : ℚ) := by
    exact_mod_cast (by omega : (0 : ℤ) ≤ a.sampleRate)
  have hk : 0 ≤ goTrunc ((keepMs : ℚ) / 1000 * (a.sampleRate : ℚ)) * a.channels :=
    mul_nonneg (goTrunc_nonneg (mul_nonneg hks hsrq)) (by omega)
  unfold cutSilenceRegions
  dsimp only
  obtain ⟨st, hst⟩ := Option.isSome_iff_exists.mp
    (foldlM_cutStep_isSome a ((keepMs : ℚ) / 1000) hk regions.reverse
      (a.samples, (0 : ℚ), ([] : List SilenceRegion)))
  rw [hst]
  rfl

/-- Witness for C10 at a deliberately ill-formed region list: a region with
a negative start frame reaching past the buffer, and an inverted region. -/
theorem cut_total_in_bounds_witness :
    (cutSilenceRegions ⟨[1, 2, 3], 7, 1, 16, 3/7, "wt"⟩
      [⟨-5, 99, 9, 0, 9⟩, ⟨4, 2, 7, 2, 9⟩] 0).isSome = true :=
  cut_total_in_bounds ⟨[1, 2, 3], 7, 1, 16, 3/7, "wt"⟩
    [⟨-5, 99, 9, 0, 9⟩, ⟨4, 2, 7, 2, 9⟩] 0 (by decide) (by decide) (by decide)

/-! ## C9: length consistency of excision -/

/-- Go's `if x > y then y else x` pattern for capping is the minimum. -/
theorem goMin (x y : ℤ) : (if x > y then y else x) = min x y := by
  split_ifs with h <;> omega

/-- Characterization of `cutStep` through the named region-loop locals; the
body is literally the source computation with the cap written as `min`. -/
theorem cutStep_eq (a : AudioData) (ks : ℚ) (st : List ℤ × ℚ × List SilenceRegion)
    (r : SilenceRegion) :
    cutStep a ks st r =
      if r.duration ≤ ks then some st
      else
        let endS := clampedEndSample r a.channels st.1.length
        let startS := clampedStartSample r a.channels
        let cutStart := if startS + keepSamplesOf a ks > endS then startS
          else startS + keepSamplesOf a ks
        if cutStart < endS ∧ cutSamplesOf a ks r > 0 then
          let actual := min (endS - cutStart) (cutSamplesOf a ks r)
          if 0 ≤ cutStart ∧ cutStart + actual ≤ (st.1.length : ℤ) then
            some (st.1.take cutStart.toNat ++ st.1.drop (cutStart + actual).toNat,
              st.2.1 + (actual : ℚ) / (a.sampleRate : ℚ) / (a.channels : ℚ), r :: st.2.2)
          else none
        else some st := by
  unfold cutStep clampedStartSample clampedEndSample keepSamplesOf cutSamplesOf
  dsimp only
  rw [goMin, goMin]

/-- Per-step length accounting for the excision loop: a successful step
preserves divisibility of the buffer length by the channel count, never
grows the buffer, and adds exactly removed_samples/rate/channels to the
removed duration (so removed spans are whole frames). -/
theorem cutStep_length (a : AudioData) (ks : ℚ) (hch : 1 ≤ a.channels)
    (hsr : 1 ≤ a.sampleRate) (st st' : List ℤ × ℚ × List SilenceRegion) (r : SilenceRegion)
    (h : cutStep a ks st r = some st') (hdvd : a.channels ∣ (st.1.length : ℤ)) :
    a.channels ∣ (st'.1.length : ℤ) ∧ st'.1.length ≤ st.1.length ∧
      (st'.2.1 - st.2.1) * (a.sampleRate : ℚ) * (a.channels : ℚ) =
        (st.1.length : ℚ) - (st'.1.length : ℚ) := by
  rw [cutStep_eq] at h
  dsimp only at h
  by_cases hc1 : r.duration ≤ ks
  · rw [if_pos hc1] at h
    obtain rfl : st = st' := Option.some.inj h
    exact ⟨hdvd, le_refl _, by ring⟩
  · rw [if_neg hc1] at h
    set endS := clampedEndSample r a.channels st.1.length with hE
    set startS := clampedStartSample r a.channels with hS
    set cutStart := if startS + keepSamplesOf a ks > endS then startS
      else startS + keepSamplesOf a ks with hC
    by_cases hc2 : cutStart < endS ∧ cutSamplesOf a ks r > 0
    · rw [if_pos hc2] at h
      by_cases hc3 : 0 ≤ cutStart ∧
          cutStart + min (endS - cutStart) (cutSamplesOf a ks r) ≤ (st.1.length : ℤ)
      · rw [if_pos hc3] at h
        obtain rfl := (Option.some.inj h).symm
        have hdE : a.channels ∣ endS := by
          rw [hE]; unfold clampedEndSample
          split_ifs
          · exact hdvd
          · exact dvd_mul_left _ _
        have hdS : a.channels ∣ startS := by
          rw [hS]; unfold clampedStartSample
          split_ifs
          · exact dvd_zero _
          · exact dvd_mul_left _ _
        have hdK : a.channels ∣ keepSamplesOf a ks := by
          unfold keepSamplesOf; exact dvd_mul_left _ _
        have hdCS : a.channels ∣ cutSamplesOf a ks r := by
          unfold cutSamplesOf; exact dvd_mul_left _ _
        have hdC : a.channels ∣ cutStart := by
          rw [hC]; split_ifs
          · exact hdS
          · exact dvd_add hdS hdK
        have hdA : a.channels ∣ min (endS - cutStart) (cutSamplesOf a ks r) := by
          rcases min_cases (endS - cutStart) (cutSamplesOf a ks r) with ⟨hmeq, -⟩ | ⟨hmeq, -⟩ <;>
            rw [hmeq]
          · exact dvd_sub hdE hdC
          · exact hdCS
        have hApos : 0 < min (endS - cutStart) (cutSamplesOf a ks r) :=
          lt_min (by omega) hc2.2
        have hlen : ((st.1.take cutStart.toNat ++
            st.1.drop (cutStart + min (endS - cutStart) (cutSamplesOf a ks r)).toNat).length : ℤ) =
            (st.1.length : ℤ) - min (endS - cutStart) (cutSamplesOf a ks r) := by
          rw [List.length_append, List.length_take, List.length_drop]
          push_cast
          omega
        have hsrne : (a.sampleRate : ℚ) ≠ 0 := by
          exact_mod_cast (by omega : a.sampleRate ≠ 0)
        have hchne : (a.channels : ℚ) ≠ 0 := by
          exact_mod_cast (by omega : a.channels ≠ 0)
        refine ⟨?_, ?_, ?_⟩
        · rw [hlen]
          exact dvd_sub hdvd hdA
        · dsimp only
          omega
        · dsimp only
          have hlenq : ((st.1.take cutStart.toNat ++
              st.1.drop (cutStart + min (endS - cutStart) (cutSamplesOf a ks r)).toNat).length : ℚ) =
              (st.1.length : ℚ) - ((min (endS - cutStart) (cutSamplesOf a ks r) : ℤ) : ℚ) := by
            exact_mod_cast hlen
          rw [hlenq]
          field_simp
          ring
      · rw [if_neg hc3] at h
        exact Option.noConfusion h
    · rw [if_neg hc2] at h
      obtain rfl : st = st' := Option.some.inj h
      exact ⟨hdvd, le_refl _, by ring⟩

/-- Fold-level length accounting for the excision loop. -/
theorem foldlM_cutStep_length (a : AudioData) (ks : ℚ) (hch : 1 ≤ a.channels)
    (hsr : 1 ≤ a.sampleRate) :
    ∀ (l : List SilenceRegion) (st st' : List ℤ × ℚ × List SilenceRegion),
      List.foldlM (cutStep a ks) st l = some st' →
      a.channels ∣ (st.1.length : ℤ) →
      a.channels ∣ (st'.1.length : ℤ) ∧ st'.1.length ≤ st.1.length ∧
        (st'.2.1 - st.2.1) * (a.sampleRate : ℚ) * (a.channels : ℚ) =
          (st.1.length : ℚ) - (st'.1.length : ℚ)
  | [], st, st', h, hdvd => by
    rw [List.foldlM_nil] at h
    obtain rfl : st = st' := Option.some.inj h
    exact ⟨hdvd, le_refl _, by ring⟩
  | r :: t, st, st', h, hdvd => by
    rw [List.foldlM_cons] at h
    cases hstep : cutStep a ks st r with
    | none =>
      rw [hstep] at h
      exact Option.noConfusion h
    | some st1 =>
      rw [hstep] at h
      obtain ⟨hd1, hl1, he1⟩ := cutStep_length a ks hch hsr st st1 r hstep hdvd
      obtain ⟨hd2, hl2, he2⟩ := foldlM_cutStep_length a ks hch hsr t st1 st' h hd1
      refine ⟨hd2, le_trans hl2 hl1, ?_⟩
      linear_combination he1 + he2

/-- C9: after excision the sample count drops by exactly the total removed
sample count (a whole number of frames: it is divisible by the channel
count), the drop equals removed_duration·rate·channels with no other change,
and the new frame count is the old frame count minus the removed frames. -/
theorem cut_length_consistency (a : AudioData) (regions : List SilenceRegion) (keepMs : ℤ)
    (hch : 1 ≤ a.channels) (hsr : 1 ≤ a.sampleRate)
    (hdvd : a.channels ∣ (a.samples.length : ℤ))
    (a' : AudioData) (res : CuttingResult)
    (hrun : cutSilenceRegions a regions keepMs = some (a', res)) :
    a.channels ∣ ((a.samples.length : ℤ) - (a'.samples.length : ℤ)) ∧
      res.removedDuration * (a.sampleRate : ℚ) * (a.channels : ℚ) =
        (a.samples.length : ℚ) - (a'.samples.length : ℚ) ∧
      a'.getFrameCount = a.getFrameCount -
        Int.tdiv ((a.samples.length : ℤ) - (a'.samples.length : ℤ)) a.channels := by
  unfold cutSilenceRegions at hrun
  dsimp only at hrun
  cases hfold : List.foldlM (cutStep a ((keepMs : ℚ) / 1000))
      (a.samples, (0 : ℚ), ([] : List SilenceRegion)) regions.reverse with
  | none =>
    rw [hfold] at hrun
    exact Option.noConfusion hrun
  | some st =>
    rw [hfold] at hrun
    obtain ⟨ha', hres⟩ := Prod.mk.injEq .. |>.mp (Option.some.inj hrun)
    obtain ⟨hd, hl, he⟩ :=
      foldlM_cutStep_length a ((keepMs : ℚ) / 1000) hch hsr regions.reverse _ st hfold hdvd
    have hsamp : a'.samples = st.1 := by rw [← ha']
    have hremoved : res.removedDuration = st.2.1 := by rw [← hres]
    have hchans : a'.channels = a.channels := by rw [← ha']
    refine ⟨?_, ?_, ?_⟩
    · rw [hsamp]
      exact dvd_sub hdvd hd
    · rw [hsamp, hremoved]
      have := he
      rw [sub_zero] at this
      exact this
    · have hd' : a.channels ∣ (a'.samples.length : ℤ) := by rw [hsamp]; exact hd
      obtain ⟨m, hm⟩ := hdvd
      obtain ⟨q, hq⟩ := hd'
      have hchz : a.channels ≠ 0 := by omega
      unfold AudioData.getFrameCount
      rw [hchans, hsamp]
      have hst1 : (st.1.length : ℤ) = a.channels * q := by rw [← hsamp]; exact hq
      rw [hst1, hm]
      rw [show a.channels * m - a.channels * q = a.channels * (m - q) from by ring]
      rw [Int.mul_tdiv_cancel_left _ hchz, Int.mul_tdiv_cancel_left _ hchz,
        Int.mul_tdiv_cancel_left _ hchz]
      omega

def aW9 : AudioData := ⟨[1, 2, 3, 4], 2, 2, 16, 1, "w9"⟩

def rW9 : SilenceRegion := ⟨0, 1, 1, 0, 1⟩

def aW9' : AudioData := ⟨[3, 4], 2, 2, 16, 1/2, "w9"⟩

def resW9 : CuttingResult := ⟨1, 1/2, 1/2, [rW9], 0, "w9"⟩

/-- Witness for C9: a stereo buffer of 2 frames loses exactly 1 frame. -/
theorem cut_length_consistency_witness :
    cutSilenceRegions aW9 [rW9] 0 = some (aW9', resW9) ∧
      (aW9.channels ∣ ((aW9.samples.length : ℤ) - (aW9'.samples.length : ℤ)) ∧
        resW9.removedDuration * (aW9.sampleRate : ℚ) * (aW9.channels : ℚ) =
          (aW9.samples.length : ℚ) - (aW9'.samples.length : ℚ) ∧
        aW9'.getFrameCount = aW9.getFrameCount -
          Int.tdiv ((aW9.samples.length : ℤ) - (aW9'.samples.length : ℤ)) aW9.channels) :=
  ⟨by with_unfolding_all decide,
    cut_length_consistency aW9 [rW9] 0 (by decide) (by decide) (by decide)
      aW9' resW9 (by with_unfolding_all decide)⟩

/-! ## C7: minimum duration gate -/

/-- Scan-loop invariant for the gate: every region the loop accumulates was
emitted through the minimum-duration check. -/
theorem scanChunks_min_duration (audioFiles : List AudioData) (config : SilenceDetectionConfig)
    (sampleRate chunkFrames minFrames : ℤ) :
    ∀ (fuel : ℕ) (frameStart cur : ℤ) (regions : List SilenceRegion),
      (∀ r ∈ regions, (config.minDurationMs : ℚ) / 1000 ≤ r.duration) →
      ∀ r ∈ (scanChunks audioFiles config sampleRate chunkFrames minFrames
          fuel frameStart cur regions).1,
        (config.minDurationMs : ℚ) / 1000 ≤ r.duration
  | 0, frameStart, cur, regions, h => h
  | fuel + 1, frameStart, cur, regions, h => by
    rw [scanChunks]
    by_cases hlt : frameStart < minFrames
    · rw [if_pos hlt]
      dsimp only
      by_cases hsil : (audioFiles.all fun a =>
          isChunkSilent a frameStart
            (if frameStart + chunkFrames > minFrames then minFrames
              else frameStart + chunkFrames) config.thresholdDBFS) = true
      · rw [if_pos hsil]
        exact scanChunks_min_duration audioFiles config sampleRate chunkFrames minFrames
          fuel (frameStart + chunkFrames) _ regions h
      · rw [if_neg hsil]
        by_cases hcur : cur ≠ -1
        · rw [if_pos hcur]
          by_cases hgate : (createSilenceRegion cur frameStart sampleRate).duration ≥
              (config.minDurationMs : ℚ) / 1000
          · rw [if_pos hgate]
            refine scanChunks_min_duration audioFiles config sampleRate chunkFrames minFrames
              fuel (frameStart + chunkFrames) (-1) _ (fun r hr => ?_)
            rcases List.mem_append.mp hr with h1 | h1
            · exact h r h1
            · rw [List.mem_singleton] at h1
              subst h1
              exact hgate
          · rw [if_neg hgate]
            exact scanChunks_min_duration audioFiles config sampleRate chunkFrames minFrames
              fuel (frameStart + chunkFrames) (-1) regions h
        · rw [if_neg hcur]
          exact scanChunks_min_duration audioFiles config sampleRate chunkFrames minFrames
            fuel (frameStart + chunkFrames) cur regions h
    · rw [if_neg hlt]
      exact h

/-- C7: no region emitted by DetectCommonSilence has duration strictly less
than min_duration_ms/1000 seconds; the candidate still open at end-of-scan
is closed at the shortest track's frame count and passes the same gate. -/
theorem detect_min_duration_gate (files : List AudioData) (cfg : SilenceDetectionConfig)
    (res : DetectionResult) (hrun : detectCommonSilence files cfg = Except.ok res) :
    ∀ r ∈ res.commonSilenceRegions, (cfg.minDurationMs : ℚ) / 1000 ≤ r.duration := by
  cases files with
  | nil => exact absurd hrun (by simp [detectCommonSilence])
  | cons ref rest =>
    unfold detectCommonSilence at hrun
    dsimp only at hrun
    by_cases hfmt : (rest.any fun a =>
        a.sampleRate != ref.sampleRate || a.channels != ref.channels) = true
    · rw [if_pos hfmt] at hrun
      exact absurd hrun (by simp)
    · rw [if_neg hfmt] at hrun
      injection hrun with hres
      subst hres
      dsimp only
      set cf := (if Int.tdiv (cfg.chunkSizeMs * ref.sampleRate) 1000 = 0 then 1
        else Int.tdiv (cfg.chunkSizeMs * ref.sampleRate) 1000) with hcf
      set mf := rest.foldl (fun m a => if a.getFrameCount < m then a.getFrameCount else m)
        ref.getFrameCount with hmf
      have hscan : ∀ r ∈ (scanChunks (ref :: rest) cfg ref.sampleRate cf mf
          mf.toNat 0 (-1) []).1, (cfg.minDurationMs : ℚ) / 1000 ≤ r.duration :=
        scanChunks_min_duration (ref :: rest) cfg ref.sampleRate cf mf mf.toNat 0 (-1) []
          (fun x hx => absurd hx (List.not_mem_nil x))
      split_ifs with hcur hgate
      · intro r hr
        rcases List.mem_append.mp hr with h1 | h1
        · exact hscan r h1
        · rw [List.mem_singleton] at h1
          subst h1
          exact hgate
      · exact hscan
      · exact hscan

def fW7 : AudioData := ⟨[0], 1, 1, 16, 1, "w7"⟩

def cfgW7 : SilenceDetectionConfig := ⟨0, 1, 1⟩

def resW7 : DetectionResult := ⟨[⟨0, 1, 1, 0, 1⟩], [], 1, [fW7], cfgW7⟩

/-- Witness for C7: a 1-frame all-zero track yields one region of duration
1 s, gated against 1 ms. -/
theorem detect_min_duration_gate_witness :
    (cfgW7.minDurationMs : ℚ) / 1000 ≤ (⟨0, 1, 1, 0, 1⟩ : SilenceRegion).duration :=
  detect_min_duration_gate [fW7] cfgW7 resW7 (by with_unfolding_all rfl)
    ⟨0, 1, 1, 0, 1⟩ (by with_unfolding_all decide)

/-! ## C6: non-overlap and ordering of detected regions -/

/-- Ordering invariant of the scan loop: if the accumulated regions are
chained (each end at most the next start), have positive extent, and are
bounded by the open candidate start (or by the frame cursor when idle), and
the open candidate lies between its opening cursor and minFrames, then the
same holds of the loop's output, with the final candidate bounding all ends
when still open. -/
theorem scanChunks_ordered (audioFiles : List AudioData) (config : SilenceDetectionConfig)
    (sampleRate chunkFrames minFrames : ℤ)
    (hcf : 0 ≤ chunkFrames) (hsr : 0 < sampleRate) (hmd : 0 < config.minDurationMs) :
    ∀ (fuel : ℕ) (frameStart cur : ℤ) (regions : List SilenceRegion),
      0 ≤ frameStart →
      List.Pairwise (fun r1 r2 => r1.endFrame ≤ r2.startFrame) regions →
      (∀ r ∈ regions, r.startFrame < r.endFrame) →
      (∀ r ∈ regions, r.endFrame ≤ (if cur = -1 then frameStart else cur)) →
      (cur ≠ -1 → cur ≤ frameStart ∧ cur < minFrames) →
      List.Pairwise (fun r1 r2 => r1.endFrame ≤ r2.startFrame)
          (scanChunks audioFiles config sampleRate chunkFrames minFrames
            fuel frameStart cur regions).1 ∧
        (∀ r ∈ (scanChunks audioFiles config sampleRate chunkFrames minFrames
            fuel frameStart cur regions).1, r.startFrame < r.endFrame) ∧
        ((scanChunks audioFiles config sampleRate chunkFrames minFrames
            fuel frameStart cur regions).2 ≠ -1 →
          (∀ r ∈ (scanChunks audioFiles config sampleRate chunkFrames minFrames
              fuel frameStart cur regions).1,
            r.endFrame ≤ (scanChunks audioFiles config sampleRate chunkFrames minFrames
              fuel frameStart cur regions).2) ∧
            (scanChunks audioFiles config sampleRate chunkFrames minFrames
              fuel frameStart cur regions).2 < minFrames)
  | 0, frameStart, cur, regions, hfs0, hI1, hI2, hI3, hI4 => by
    refine ⟨hI1, hI2, fun hcur => ?_⟩
    have hcur' : cur ≠ -1 := hcur
    refine ⟨fun r hr => ?_, (hI4 hcur').2⟩
    have := hI3 r hr
    rw [if_neg hcur'] at this
    exact this
  | fuel + 1, frameStart, cur, regions, hfs0, hI1, hI2, hI3, hI4 => by
    rw [scanChunks]
    by_cases hlt : frameStart < minFrames
    · rw [if_pos hlt]
      dsimp only
      by_cases hsil : (audioFiles.all fun a =>
          isChunkSilent a frameStart
            (if frameStart + chunkFrames > minFrames then minFrames
              else frameStart + chunkFrames) config.thresholdDBFS) = true
      · rw [if_pos hsil]
        by_cases hcur : cur = -1
        · rw [if_pos hcur]
          refine scanChunks_ordered audioFiles config sampleRate chunkFrames minFrames
            hcf hsr hmd fuel (frameStart + chunkFrames) frameStart regions (by omega)
            hI1 hI2 (fun r hr => ?_) (fun _ => ⟨by omega, hlt⟩)
          rw [if_neg (by omega : ¬frameStart = -1)]
          have := hI3 r hr
          rw [if_pos hcur] at this
          exact this
        · rw [if_neg hcur]
          refine scanChunks_ordered audioFiles config sampleRate chunkFrames minFrames
            hcf hsr hmd fuel (frameStart + chunkFrames) cur regions (by omega)
            hI1 hI2 (fun r hr => ?_) (fun h => ⟨by have := (hI4 hcur).1; omega, (hI4 hcur).2⟩)
          rw [if_neg hcur]
          have := hI3 r hr
          rw [if_neg hcur] at this
          exact this
      · rw [if_neg hsil]
        by_cases hcur : cur ≠ -1
        · rw [if_pos hcur]
          by_cases hgate : (createSilenceRegion cur frameStart sampleRate).duration ≥
              (config.minDurationMs : ℚ) / 1000
          · rw [if_pos hgate]
            -- the emitted region has positive extent thanks to the gate
            have hext : cur < frameStart := by
              unfold createSilenceRegion at hgate
              dsimp only at hgate
              have hmdq : (0 : ℚ) < (config.minDurationMs : ℚ) / 1000 := by
                have h0 : (0 : ℚ) < (config.minDurationMs : ℚ) := by exact_mod_cast hmd
                positivity
              have hsrq : (0 : ℚ) < (sampleRate : ℚ) := by exact_mod_cast hsr
              have h1 : (0 : ℚ) < (frameStart : ℚ) / (sampleRate : ℚ) -
                  (cur : ℚ) / (sampleRate : ℚ) := lt_of_lt_of_le hmdq hgate
              rw [div_sub_div_same] at h1
              rcases div_pos_iff.mp h1 with ⟨hn, -⟩ | ⟨-, hs⟩
              · have : (cur : ℚ) < (frameStart : ℚ) := by linarith
                exact_mod_cast this
              · linarith
            have hcb := hI4 hcur
            refine scanChunks_ordered audioFiles config sampleRate chunkFrames minFrames
              hcf hsr hmd fuel (frameStart + chunkFrames) (-1)
              (regions ++ [createSilenceRegion cur frameStart sampleRate]) (by omega)
              ?_ ?_ ?_ (fun h => absurd rfl h)
            · refine List.pairwise_append.mpr ⟨hI1, List.pairwise_singleton _ _,
                fun r hr r' hr' => ?_⟩
              rw [List.mem_singleton] at hr'
              subst hr'
              have := hI3 r hr
              rw [if_neg hcur] at this
              simpa [createSilenceRegion] using this
            · intro r hr
              rcases List.mem_append.mp hr with h1 | h1
              · exact hI2 r h1
              · rw [List.mem_singleton] at h1
                subst h1
                simpa [createSilenceRegion] using hext
            · intro r hr
              rw [if_pos rfl]
              rcases List.mem_append.mp hr with h1 | h1
              · have := hI3 r h1
                rw [if_neg hcur] at this
                omega
              · rw [List.mem_singleton] at h1
                subst h1
                have : (createSilenceRegion cur frameStart sampleRate).endFrame = frameStart := by
                  simp [createSilenceRegion]
                omega
          · rw [if_neg hgate]
            have hcb := hI4 hcur
            refine scanChunks_ordered audioFiles config sampleRate chunkFrames minFrames
              hcf hsr hmd fuel (frameStart + chunkFrames) (-1) regions (by omega)
              hI1 hI2 (fun r hr => ?_) (fun h => absurd rfl h)
            rw [if_pos rfl]
            have := hI3 r hr
            rw [if_neg hcur] at this
            omega
        · rw [if_neg hcur]
          push_neg at hcur
          refine scanChunks_ordered audioFiles config sampleRate chunkFrames minFrames
            hcf hsr hmd fuel (frameStart + chunkFrames) cur regions (by omega)
            hI1 hI2 (fun r hr => ?_) (fun h => absurd hcur h)
          rw [if_pos hcur]
          have := hI3 r hr
          rw [if_pos hcur] at this
          omega
    · rw [if_neg hlt]
      refine ⟨hI1, hI2, fun hcur => ?_⟩
      have hcur' : cur ≠ -1 := hcur
      refine ⟨fun r hr => ?_, (hI4 hcur').2⟩
      have := hI3 r hr
      rw [if_neg hcur'] at this
      exact this

/-- A chained region list whose members have positive extent is also sorted
by start frame. -/
theorem chain_to_sorted (l : List SilenceRegion)
    (hp : List.Pairwise (fun r1 r2 => r1.endFrame ≤ r2.startFrame) l)
    (he : ∀ r ∈ l, r.startFrame < r.endFrame) :
    List.Pairwise (fun r1 r2 => r1.endFrame ≤ r2.startFrame ∧ r1.startFrame ≤ r2.startFrame)
      l :=
  hp.imp_of_mem (fun ha _ hr => ⟨hr, by have := he _ ha; omega⟩)

/-- C6: for every non-empty buffer list and valid config, the detected
common-silence regions are pairwise non-overlapping (each region's end frame
is at most the next one's start frame) and sorted ascending by start frame. -/
theorem detect_regions_ordered (ref : AudioData) (rest : List AudioData)
    (cfg : SilenceDetectionConfig) (res : DetectionResult)
    (hcs : 0 < cfg.chunkSizeMs) (hmd : 0 < cfg.minDurationMs) (hsr : 0 < ref.sampleRate)
    (hrun : detectCommonSilence (ref :: rest) cfg = Except.ok res) :
    List.Pairwise (fun r1 r2 => r1.endFrame ≤ r2.startFrame ∧ r1.startFrame ≤ r2.startFrame)
      res.commonSilenceRegions := by
  unfold detectCommonSilence at hrun
  dsimp only at hrun
  by_cases hfmt : (rest.any fun a =>
      a.sampleRate != ref.sampleRate || a.channels != ref.channels) = true
  · rw [if_pos hfmt] at hrun
    exact absurd hrun (by simp)
  · rw [if_neg hfmt] at hrun
    injection hrun with hres
    subst hres
    dsimp only
    set cf := (if Int.tdiv (cfg.chunkSizeMs * ref.sampleRate) 1000 = 0 then 1
      else Int.tdiv (cfg.chunkSizeMs * ref.sampleRate) 1000) with hcfdef
    set mf := rest.foldl (fun m a => if a.getFrameCount < m then a.getFrameCount else m)
      ref.getFrameCount with hmfdef
    have hcf0 : 0 ≤ cf := by
      rw [hcfdef]
      have h0 : 0 ≤ Int.tdiv (cfg.chunkSizeMs * ref.sampleRate) 1000 :=
        Int.tdiv_nonneg (mul_nonneg (by omega) (by omega)) (by norm_num)
      split_ifs <;> omega
    obtain ⟨hP, hExt, hTail⟩ := scanChunks_ordered (ref :: rest) cfg ref.sampleRate cf mf
      hcf0 hsr hmd mf.toNat 0 (-1) [] (le_refl 0) List.Pairwise.nil
      (fun r hr => absurd hr (List.not_mem_nil r))
      (fun r hr => absurd hr (List.not_mem_nil r))
      (fun h => absurd rfl h)
    split_ifs with hcur hgate
    · -- the open candidate is closed at minFrames and appended
      obtain ⟨hBound, hLt⟩ := hTail hcur
      refine chain_to_sorted _ ?_ ?_
      · refine List.pairwise_append.mpr ⟨hP, List.pairwise_singleton _ _,
          fun r hr r' hr' => ?_⟩
        rw [List.mem_singleton] at hr'
        subst hr'
        have := hBound r hr
        simpa [createSilenceRegion] using this
      · intro r hr
        rcases List.mem_append.mp hr with h1 | h1
        · exact hExt r h1
        · rw [List.mem_singleton] at h1
          subst h1
          simpa [createSilenceRegion] using hLt
    · exact chain_to_sorted _ hP hExt
    · exact chain_to_sorted _ hP hExt

def fW6 : AudioData := ⟨[0, 0], 1, 1, 16, 2, "w6"⟩

def cfgW6 : SilenceDetectionConfig := ⟨-50, 1, 1000⟩

def resW6 : DetectionResult := ⟨[⟨0, 2, 2, 0, 2⟩], [], 2, [fW6], cfgW6⟩

/-- Witness for C6 at a concrete all-zero two-frame track producing one
region. -/
theorem detect_regions_ordered_witness :
    List.Pairwise (fun r1 r2 => r1.endFrame ≤ r2.startFrame ∧ r1.startFrame ≤ r2.startFrame)
      resW6.commonSilenceRegions :=
  detect_regions_ordered fW6 [] cfgW6 resW6 (by decide) (by decide) (by decide)
    (by with_unfolding_all rfl)
